import Mathlib

/-!
Verification of the influencer-catalog pipeline scripts
(`scripts/fetch_youtube.py`, `scripts/fetch_instagram.py`,
`scripts/fetch_tiktok.py`, `scripts/merge.py`).

Shallow embedding conventions:
- Python dicts used as keyed catalogs are modelled as insertion-ordered
  association lists `List (String × α)`; `setKey` models `d[k] = v`
  (replace in place when the key exists, append otherwise), which is
  Python dict-update semantics.
- Python `a or b` on values read with `dict.get` is modelled by the
  `pyOr*` helpers: `dict.get` yields an `Option`, and a value is falsy
  exactly when it is `none`, `0`, `""`, or `false` — so the helper
  returns the first truthy candidate, else the fallback.
- `datetime.now(...)` values are passed in as an opaque string argument.
- Remote responses (actor run statuses, result items, raw profile
  records) are passed in as explicit arguments; network transport is
  outside the embedded fragment.
-/

set_option maxRecDepth 4000

/-- Python truthiness fallback on an optional string: first candidate if
present and non-empty, else the fallback (`a.get(k) or b`). -/
def pyOrS (a : Option String) (b : String) : String :=
  match a with
  | some s => if s = "" then b else s
  | none => b

/-- Python truthiness fallback on an optional count: first candidate if
present and non-zero, else the fallback (`a.get(k) or b`). -/
def pyOrN (a : Option Nat) (b : Nat) : Nat :=
  match a with
  | some n => if n = 0 then b else n
  | none => b

/-- Python truthiness fallback on an optional boolean (`a.get(k) or b`). -/
def pyOrB (a : Option Bool) (b : Bool) : Bool :=
  match a with
  | some x => if x then x else b
  | none => b

/-- Python truthiness fallback on two plain strings (`a or b`). -/
def pyOrSS (a b : String) : String :=
  if a = "" then b else a

/-- Tier classifier `get_tier`, identical in all three fetch scripts:
inclusive lower bounds 1,000,000 / 100,000 / 50,000 / 10,000. -/
def get_tier (followers : Nat) : String :=
  if followers ≥ 1000000 then "mega"
  else if followers ≥ 100000 then "macro"
  else if followers ≥ 50000 then "mid"
  else if followers ≥ 10000 then "micro"
  else "nano"

/-- Severity rank of a tier label, for stating monotonicity (nano = 0 up
to mega = 4). -/
def tierRank (t : String) : Nat :=
  if t = "mega" then 4
  else if t = "macro" then 3
  else if t = "mid" then 2
  else if t = "micro" then 1
  else 0

/-- Canonical influencer record: union of the fields the three
canonicalizers emit.  Fields a given platform does not set keep their
neutral default and never participate in that platform's behavior.
`engagement_rate` is the always-`None` field of the Python records,
modelled as an `Option` whose `none` is the "unset" sentinel. -/
structure Influencer where
  id : String := ""
  platform : String := ""
  channel_id : String := ""
  handle : String := ""
  name : String := ""
  description : String := ""
  profile_url : String := ""
  profile_image : String := ""
  country : String := ""
  language : String := ""
  keywords : String := ""
  followers : Nat := 0
  following : Nat := 0
  posts_count : Nat := 0
  total_likes : Nat := 0
  view_count : Nat := 0
  video_count : Nat := 0
  avg_views_per_video : Nat := 0
  engagement_rate : Option Nat := none
  bio : String := ""
  is_verified : Bool := false
  category : List String := []
  tier : String := ""
  last_updated : String := ""
deriving DecidableEq

/- ──────────────────────────────────────────────────────────────
   Ordered-dictionary model shared by the reconcilers
   ────────────────────────────────────────────────────────────── -/

/-- Keys of an association-list dictionary, in insertion order. -/
def dkeys {α : Type} (d : List (String × α)) : List String :=
  d.map (fun p => p.1)

/-- Dictionary lookup: value at the first occurrence of the key. -/
def dlookup {α : Type} (k : String) : List (String × α) → Option α
  | [] => none
  | p :: d => if p.1 = k then some p.2 else dlookup k d

/-- Python `d[k] = v`: overwrite in place if the key exists (keeping its
position), append otherwise. -/
def setKey {α : Type} (d : List (String × α)) (k : String) (v : α) :
    List (String × α) :=
  if k ∈ dkeys d then d.map (fun p => if p.1 = k then (k, v) else p)
  else d ++ [(k, v)]

/-- Python `{**e, **n}` / `e.update(n)`: write every entry of `n` into a
copy of `e`. -/
def dictUpdate {α : Type} (e n : List (String × α)) : List (String × α) :=
  n.foldl (fun d p => setKey d p.1 p.2) e

/-- Python dict comprehension keying a list of records
(`{key(a): a for a in l}`): later duplicates overwrite, first position
kept. -/
def dictOfList (key : Influencer → String) (l : List Influencer) :
    List (String × Influencer) :=
  l.foldl (fun d a => setKey d (key a) a) []

/- ──────────────────────────────────────────────────────────────
   Stable descending sort by followers
   (`filtered.sort(key=lambda x: x["followers"], reverse=True)`;
   Python list.sort is stable, and reverse=True keeps ties in
   original order)
   ────────────────────────────────────────────────────────────── -/

/-- One step of the stable descending insertion sort: `a` goes before the
first element whose followers count does not exceed it, so among equal
counts the earlier-listed record stays first. -/
def insertByFollowers (a : Influencer) : List Influencer → List Influencer
  | [] => [a]
  | b :: l => if a.followers < b.followers then b :: insertByFollowers a l
              else a :: b :: l

/-- Stable sort of a record list by followers, descending. -/
def sortByFollowersDesc (l : List Influencer) : List Influencer :=
  l.foldr insertByFollowers []

/- ──────────────────────────────────────────────────────────────
   Remote job client (`run_actor` in fetch_instagram.py /
   fetch_tiktok.py): submit, poll every 5 seconds up to
   timeout_sec // 5 attempts, fetch results only on SUCCEEDED
   ────────────────────────────────────────────────────────────── -/

/-- Status strings returned by the actor-run status endpoint.  `running`
stands for any status that is neither SUCCEEDED nor one of the three
terminal failure strings, since the loop treats all of those alike. -/
inductive ActorStatus
  | running
  | succeeded
  | failed
  | aborted
  | timedOut
deriving DecidableEq

/-- The polling loop of `run_actor`: `obs i` is the status the i-th poll
observes; the first argument is the remaining attempt budget.  Returns
whether the loop broke out on SUCCEEDED. -/
def pollFrom (obs : Nat → ActorStatus) : Nat → Nat → Bool
  | 0, _ => false
  | k + 1, i =>
    match obs i with
    | .succeeded => true
    | .failed => false
    | .aborted => false
    | .timedOut => false
    | .running => pollFrom obs k (i + 1)

/-- `run_actor`: poll up to `timeout_sec / 5` times; on SUCCEEDED fetch
and return the dataset items, otherwise return `[]`.  The boolean is the
warning-to-stderr flag (true exactly on the failure/timeout paths). -/
def run_actor {α : Type} (obs : Nat → ActorStatus) (timeout_sec : Nat)
    (items : List α) : List α × Bool :=
  if pollFrom obs (timeout_sec / 5) 0 then (items, false) else ([], true)

/- ──────────────────────────────────────────────────────────────
   Instagram canonicalizer (`collect_usernames`, `fetch_profiles`)
   ────────────────────────────────────────────────────────────── -/

/-- One raw hashtag-scraper post, reduced to the only field
`collect_usernames` reads. -/
structure IGPost where
  ownerUsername : Option String := none
deriving DecidableEq

/-- `collect_usernames`: the set comprehension
`{post["ownerUsername"] for post in posts if post.get("ownerUsername")}`
(guard: key present and truthy, i.e. a non-empty string). -/
def collect_usernames (posts : List IGPost) : Finset String :=
  (posts.filterMap
    (fun p => p.ownerUsername.bind
      (fun s => if s = "" then none else some s))).toFinset

/-- One raw profile-scraper record, reduced to the fields
`fetch_profiles` reads.  `handleField` is the raw `handle` key (read
with default `""`), distinct from the resolved canonical handle. -/
structure IGProfile where
  username : Option String := none
  handleField : Option String := none
  followersCount : Option Nat := none
  followersField : Option Nat := none
  fullName : Option String := none
  profilePicUrl : Option String := none
  profilePicUrlHD : Option String := none
  followsCount : Option Nat := none
  postsCount : Option Nat := none
  biography : Option String := none
  verified : Option Bool := none
deriving DecidableEq

/-- Resolved identity key of a raw profile:
`p.get("username") or p.get("handle", "")`. -/
def igHandle (p : IGProfile) : String :=
  pyOrS p.username (p.handleField.getD "")

/-- Follower count of a raw profile:
`p.get("followersCount") or p.get("followers", 0) or 0`. -/
def igFollowers (p : IGProfile) : Nat :=
  pyOrN p.followersCount (p.followersField.getD 0)

/-- Canonicalization of one raw profile inside `fetch_profiles`
(`None` when the record is skipped for lack of a handle). -/
def igCanonOne (p : IGProfile) (today : String) : Option Influencer :=
  let handle := igHandle p
  let followers := igFollowers p
  if handle = "" then none
  else some
    { id := "ig_" ++ handle
      platform := "instagram"
      handle := handle
      name := pyOrS p.fullName handle
      profile_url := "https://www.instagram.com/" ++ handle ++ "/"
      profile_image := pyOrS p.profilePicUrl (pyOrS p.profilePicUrlHD "")
      followers := followers
      following := pyOrN p.followsCount 0
      posts_count := pyOrN p.postsCount 0
      engagement_rate := none
      bio := (pyOrS p.biography "").take 100
      is_verified := pyOrB p.verified false
      category := ["skincare", "beauty"]
      tier := get_tier followers
      last_updated := today }

/-- `fetch_profiles`: canonicalize every returned profile in order,
skipping records with no resolvable handle.  (The Python code issues the
remote calls in chunks of 50 and appends each chunk's results in order,
so the produced list is this single pass over the concatenation.) -/
def fetch_profiles (profiles : List IGProfile) (today : String) :
    List Influencer :=
  profiles.filterMap (fun p => igCanonOne p today)

/- ──────────────────────────────────────────────────────────────
   TikTok canonicalizer (`extract_accounts`)
   ────────────────────────────────────────────────────────────── -/

/-- One raw author object of the TikTok hashtag scraper, reduced to the
fields `extract_accounts` reads. -/
structure TTAuthor where
  authorName : Option String := none
  uniqueId : Option String := none
  fans : Option Nat := none
  followersField : Option Nat := none
  followersCount : Option Nat := none
  followingField : Option Nat := none
  followingCount : Option Nat := none
  heart : Option Nat := none
  digg : Option Nat := none
  video : Option Nat := none
  videoCount : Option Nat := none
  nickName : Option String := none
  nickname : Option String := none
  avatar : Option String := none
  avatarLarger : Option String := none
  verified : Option Bool := none
deriving DecidableEq

/-- One raw video record: `v.get("authorMeta") or v.get("author") or {}`.
An absent or empty author dict is `none`; a present non-empty dict is
`some`. -/
structure TTVideo where
  authorMeta : Option TTAuthor := none
  author : Option TTAuthor := none
deriving DecidableEq

/-- The effective author dict of a video (the `or {}` fallback yields the
all-absent author). -/
def effectiveAuthor (v : TTVideo) : TTAuthor :=
  (v.authorMeta <|> v.author).getD {}

/-- Identity key of an author:
`author.get("name") or author.get("uniqueId") or ""`. -/
def ttHandle (a : TTAuthor) : String :=
  pyOrS a.authorName (pyOrS a.uniqueId "")

/-- Canonical record built by `extract_accounts` for one author with
resolved handle. -/
def ttCanon (a : TTAuthor) (today : String) : Influencer :=
  let handle := ttHandle a
  let followers := pyOrN a.fans (pyOrN a.followersField (pyOrN a.followersCount 0))
  { id := "tt_" ++ handle
    platform := "tiktok"
    handle := handle
    name := pyOrS a.nickName (pyOrS a.nickname handle)
    profile_url := "https://www.tiktok.com/@" ++ handle
    profile_image := pyOrS a.avatar (pyOrS a.avatarLarger "")
    followers := followers
    following := pyOrN a.followingField (pyOrN a.followingCount 0)
    total_likes := pyOrN a.heart (pyOrN a.digg 0)
    video_count := pyOrN a.video (pyOrN a.videoCount 0)
    engagement_rate := none
    is_verified := pyOrB a.verified false
    category := ["skincare", "beauty"]
    tier := get_tier followers
    last_updated := today }

/-- Loop body of `extract_accounts`, carrying the accounts dict built so
far: `if not handle or handle in accounts: continue` then
`accounts[handle] = {...}`. -/
def extractGo (today : String) (acc : List (String × Influencer)) :
    List TTVideo → List (String × Influencer)
  | [] => acc
  | v :: rest =>
    let a := effectiveAuthor v
    let h := ttHandle a
    if h = "" ∨ h ∈ dkeys acc then extractGo today acc rest
    else extractGo today (acc ++ [(h, ttCanon a today)]) rest

/-- `extract_accounts`: handle-keyed dict of canonical records, first
occurrence of each handle wins, empty handles skipped. -/
def extract_accounts (videos : List TTVideo) (today : String) :
    List (String × Influencer) :=
  extractGo today [] videos

/-- First author in a video batch whose resolved handle is `k` (the raw
occurrence `extract_accounts` derives its record for `k` from). -/
def firstAuthorWith (k : String) : List TTVideo → Option TTAuthor
  | [] => none
  | v :: rest =>
    if ttHandle (effectiveAuthor v) = k then some (effectiveAuthor v)
    else firstAuthorWith k rest

/- ──────────────────────────────────────────────────────────────
   YouTube canonicalizer (`fetch_channel_details`) and filter
   (`apply_filters`)
   ────────────────────────────────────────────────────────────── -/

/-- One raw channels-API item, reduced to the fields
`fetch_channel_details` reads.  Fields read with `.get(k, "")` or wrapped
in `int(stats.get(k, 0))` are stored with that default already applied;
the three thumbnail URLs are read with a plain `.get("url")` and so stay
optional. -/
structure YTItem where
  channelId : String := ""
  title : String := ""
  descriptionRaw : String := ""
  country : String := ""
  defaultLanguage : String := ""
  customUrl : String := ""
  thumbHigh : Option String := none
  thumbMedium : Option String := none
  thumbDefault : Option String := none
  brandingKeywords : String := ""
  subscriberCount : Nat := 0
  viewCount : Nat := 0
  videoCount : Nat := 0
deriving DecidableEq

/-- Python `round` on the non-negative rational `num / den` (`den > 0`):
round-half-to-even, as used for `avg_views_per_video`. -/
def pyRound (num den : Nat) : Nat :=
  let q := num / den
  let r := num % den
  if 2 * r < den then q
  else if den < 2 * r then q + 1
  else if q % 2 = 0 then q else q + 1

/-- Canonical record built by `fetch_channel_details` for one item. -/
def ytCanon (item : YTItem) (today : String) : Influencer :=
  { id := "yt_" ++ item.channelId
    platform := "youtube"
    channel_id := item.channelId
    handle := pyOrSS item.customUrl item.channelId
    name := item.title
    description := item.descriptionRaw.take 200
    profile_url := "https://www.youtube.com/channel/" ++ item.channelId
    profile_image :=
      pyOrS item.thumbHigh (pyOrS item.thumbMedium (pyOrS item.thumbDefault ""))
    country := item.country
    language := item.defaultLanguage
    keywords := item.brandingKeywords
    followers := item.subscriberCount
    view_count := item.viewCount
    video_count := item.videoCount
    avg_views_per_video :=
      if 0 < item.videoCount then pyRound item.viewCount item.videoCount else 0
    engagement_rate := none
    tier := get_tier item.subscriberCount
    category := ["skincare", "beauty"]
    last_updated := today }

/-- `fetch_channel_details`: canonicalize every returned item in order
(the remote calls are chunked by 50 and the chunks concatenated in
order). -/
def fetch_channel_details (items : List YTItem) (today : String) :
    List Influencer :=
  items.map (fun item => ytCanon item today)

/-- `apply_filters` in fetch_youtube.py: keep channels with
`followers >= min_sub and video_count >= min_videos`.  Note: no upper
bound on followers is checked. -/
def apply_filters (channels : List Influencer) (min_sub min_videos : Nat) :
    List Influencer :=
  channels.filter
    (fun ch => decide (min_sub ≤ ch.followers ∧ min_videos ≤ ch.video_count))

/- ──────────────────────────────────────────────────────────────
   Incremental reconciler (main of fetch_instagram.py and
   fetch_tiktok.py)
   ────────────────────────────────────────────────────────────── -/

/-- Union of the per-unit candidate key sets
(`all_channel_ids.update(ids)` in fetch_youtube.py, which submits every
collected id to the detail phase — no existing catalog is loaded there). -/
def unitsUnion (units : List (Finset String)) : Finset String :=
  units.foldl (fun s c => s ∪ c) ∅

/-- Per-unit discovery loop of fetch_instagram.py main (and the
keys-view of the fetch_tiktok.py loop):
`new_in_tag = usernames - set(existing.keys()) - all_usernames` then
`all_usernames.update(new_in_tag)`.  The result is the set of keys
submitted to the enrichment phase (`fetch_profiles(token,
list(all_usernames))`). -/
def discoverLoop (existingKeys : Finset String)
    (units : List (Finset String)) : Finset String :=
  units.foldl (fun found cand => found ∪ ((cand \ existingKeys) \ found)) ∅

/-- The inclusive range filter of fetch_instagram.py / fetch_tiktok.py
main: `[acc for acc in merged.values() if min_f <= acc["followers"] <=
max_f]`. -/
def rangeFilter (l : List Influencer) (minF maxF : Nat) : List Influencer :=
  l.filter (fun a => decide (minF ≤ a.followers ∧ a.followers ≤ maxF))

/-- `load_existing`: key the persisted influencer list by handle
(`{acc["handle"]: acc for acc in data.get("influencers", [])}`). -/
def load_existing (influencers : List Influencer) :
    List (String × Influencer) :=
  dictOfList (fun a => a.handle) influencers

/-- The merge / filter / rank / count tail of fetch_instagram.py and
fetch_tiktok.py main:
`merged = {**existing, **new}` (new keyed by handle), keep followers in
the inclusive `[min_f, max_f]` range, stable-sort descending, and emit
`(count, influencers)`. -/
def reconcile (existingList newList : List Influencer) (minF maxF : Nat) :
    Nat × List Influencer :=
  let existing := load_existing existingList
  let newDict := dictOfList (fun a => a.handle) newList
  let merged := dictUpdate existing newDict
  let filtered := rangeFilter (merged.map (fun p => p.2)) minF maxF
  let sorted := sortByFollowersDesc filtered
  (sorted.length, sorted)

/- ──────────────────────────────────────────────────────────────
   Multi-source unifier (merge.py)
   ────────────────────────────────────────────────────────────── -/

/-- Loop body of merge.py main over the concatenated source lists, with
the `seen_ids` set and the output list built so far:
`if item["id"] not in seen_ids: seen_ids.add(...); append(...)`.  The
per-file loops share one `seen_ids`/output across files, so they are one
pass over the concatenation of the source lists. -/
def dedupGo (seen : Finset String) (acc : List Influencer) :
    List Influencer → List Influencer
  | [] => acc
  | r :: rest =>
    if r.id ∈ seen then dedupGo seen acc rest
    else dedupGo (insert r.id seen) (acc ++ [r]) rest

/-- First record with a given id in a list (the occurrence first-wins
deduplication keeps). -/
def firstWithId (i : String) : List Influencer → Option Influencer
  | [] => none
  | r :: t => if r.id = i then some r else firstWithId i t

/-- merge.py main: first-source-wins deduplication by id over the
catalogs in priority order, then stable descending sort by followers. -/
def unify_main (catalogs : List (List Influencer)) : List Influencer :=
  sortByFollowersDesc (dedupGo ∅ [] catalogs.flatten)

/- ──────────────────────────────────────────────────────────────
   C9 — tier classifier
   ────────────────────────────────────────────────────────────── -/

/-- The severity rank of the classified tier as a threshold cascade on
the count itself. -/
theorem tierRank_get_tier (f : Nat) :
    tierRank (get_tier f) =
      if 1000000 ≤ f then 4 else if 100000 ≤ f then 3
      else if 50000 ≤ f then 2 else if 10000 ≤ f then 1 else 0 := by
  by_cases h1 : 1000000 ≤ f
  · simp [get_tier, tierRank, h1]
  · by_cases h2 : 100000 ≤ f
    · simp [get_tier, tierRank, h1, h2]
    · by_cases h3 : 50000 ≤ f
      · simp [get_tier, tierRank, h1, h2, h3]
      · by_cases h4 : 10000 ≤ f
        · simp [get_tier, tierRank, h1, h2, h3, h4]
        · simp [get_tier, tierRank, h1, h2, h3, h4]

/-- C9: the tier classifier is total with exactly five possible results,
each tier is returned exactly on its documented half-open (resp.
unbounded) interval of follower counts, and the tier severity is
monotonically non-decreasing in the follower count. -/
theorem C9_tier_classifier (f : Nat) :
    (get_tier f = "mega" ∨ get_tier f = "macro" ∨ get_tier f = "mid" ∨
      get_tier f = "micro" ∨ get_tier f = "nano")
  ∧ (get_tier f = "mega" ↔ 1000000 ≤ f)
  ∧ (get_tier f = "macro" ↔ 100000 ≤ f ∧ f < 1000000)
  ∧ (get_tier f = "mid" ↔ 50000 ≤ f ∧ f < 100000)
  ∧ (get_tier f = "micro" ↔ 10000 ≤ f ∧ f < 50000)
  ∧ (get_tier f = "nano" ↔ f < 10000)
  ∧ (∀ g, f ≤ g → tierRank (get_tier f) ≤ tierRank (get_tier g)) := by
  refine ⟨?_, ?_, ?_, ?_, ?_, ?_, ?_⟩
  · unfold get_tier; split_ifs <;> simp
  · unfold get_tier; split_ifs <;> simp_all <;> omega
  · unfold get_tier; split_ifs <;> simp_all <;> omega
  · unfold get_tier; split_ifs <;> simp_all <;> omega
  · unfold get_tier; split_ifs <;> simp_all <;> omega
  · unfold get_tier; split_ifs <;> simp_all <;> omega
  · intro g hg
    rw [tierRank_get_tier, tierRank_get_tier]
    split_ifs <;> omega

/-- C9 witness: monotonicity instantiated at 5000 ≤ 20000. -/
theorem C9_tier_classifier_witness :
    (5000 : Nat) ≤ 20000 ∧ tierRank (get_tier 5000) ≤ tierRank (get_tier 20000) :=
  ⟨by omega, (C9_tier_classifier 5000).2.2.2.2.2.2 20000 (by omega)⟩

/- ──────────────────────────────────────────────────────────────
   C10 — guarded average computation
   ────────────────────────────────────────────────────────────── -/

/-- The half-even rounding of `v / n` is within half a unit of the exact
ratio: `2*n*pyRound v n` lies in `[2*v - n, 2*v + n]`. -/
theorem pyRound_accuracy (v n : Nat) (hn : 0 < n) :
    2 * v ≤ 2 * (n * pyRound v n) + n ∧ 2 * (n * pyRound v n) ≤ 2 * v + n := by
  have hdm : n * (v / n) + v % n = v := Nat.div_add_mod v n
  have hr : v % n < n := Nat.mod_lt v hn
  simp only [pyRound]
  split_ifs <;> (try simp only [Nat.mul_add, Nat.mul_one]) <;> omega

/-- C10: the `avg_views_per_video` field produced by the YouTube
canonicalizer is the rounded ratio of views to videos when the channel
has videos and 0 when it has none, so the computation is total and the
division is always guarded; when videos exist the result is within half
a unit of the exact ratio. -/
theorem C10_guarded_average (item : YTItem) (today : String) :
    ((ytCanon item today).avg_views_per_video =
      if 0 < item.videoCount then pyRound item.viewCount item.videoCount
      else 0)
  ∧ (item.videoCount = 0 → (ytCanon item today).avg_views_per_video = 0)
  ∧ (0 < item.videoCount →
      2 * item.viewCount ≤
          2 * (item.videoCount * (ytCanon item today).avg_views_per_video)
            + item.videoCount ∧
        2 * (item.videoCount * (ytCanon item today).avg_views_per_video) ≤
          2 * item.viewCount + item.videoCount) := by
  refine ⟨rfl, ?_, ?_⟩
  · intro h0
    simp [ytCanon, h0]
  · intro hn
    have hacc := pyRound_accuracy item.viewCount item.videoCount hn
    simpa [ytCanon, if_pos hn] using hacc

/-- C10 witness: 7 views over 2 videos rounds (half-to-even upward here)
to 4, within half a unit of 3.5. -/
theorem C10_guarded_average_witness :
    0 < (2 : Nat) ∧
      2 * 7 ≤ 2 *
          (2 * (ytCanon { viewCount := 7, videoCount := 2 } "2026-10-12").avg_views_per_video) + 2 ∧
        2 * (2 * (ytCanon { viewCount := 7, videoCount := 2 } "2026-10-12").avg_views_per_video) ≤
          2 * 7 + 2 :=
  ⟨by omega,
    (C10_guarded_average { viewCount := 7, videoCount := 2 } "2026-10-12").2.2
      (by decide)⟩

/- ──────────────────────────────────────────────────────────────
   C4 — recovered job failure
   ────────────────────────────────────────────────────────────── -/

/-- The polling loop reports success exactly when some poll within the
attempt budget observes SUCCEEDED with only non-terminal statuses before
it. -/
theorem pollFrom_eq_true_iff (obs : Nat → ActorStatus) :
    ∀ n i, pollFrom obs n i = true ↔
      ∃ k, k < n ∧ obs (i + k) = ActorStatus.succeeded ∧
        ∀ j, j < k → obs (i + j) = ActorStatus.running := by
  intro n
  induction n with
  | zero =>
    intro i
    simp only [pollFrom, Bool.false_eq_true, false_iff]
    rintro ⟨k, hk, -, -⟩
    omega
  | succ m ih =>
    intro i
    cases hobs : obs i with
    | succeeded =>
      constructor
      · intro _
        exact ⟨0, Nat.succ_pos m, by simpa using hobs,
          fun j hj => absurd hj (Nat.not_lt_zero j)⟩
      · intro _
        simp [pollFrom, hobs]
    | running =>
      have hred : pollFrom obs (m + 1) i = pollFrom obs m (i + 1) := by
        simp [pollFrom, hobs]
      rw [hred, ih (i + 1)]
      constructor
      · rintro ⟨k, hk, hs, hr⟩
        refine ⟨k + 1, by omega, ?_, ?_⟩
        · have harith : i + (k + 1) = i + 1 + k := by omega
          rw [harith]; exact hs
        · intro j hj
          cases j with
          | zero => simpa using hobs
          | succ j0 =>
            have harith : i + (j0 + 1) = i + 1 + j0 := by omega
            rw [harith]; exact hr j0 (by omega)
      · rintro ⟨k, hk, hs, hr⟩
        cases k with
        | zero =>
          rw [Nat.add_zero, hobs] at hs
          cases hs
        | succ k0 =>
          refine ⟨k0, by omega, ?_, ?_⟩
          · have harith : i + 1 + k0 = i + (k0 + 1) := by omega
            rw [harith]; exact hs
          · intro j hj
            have harith : i + 1 + j = i + (j + 1) := by omega
            rw [harith]; exact hr (j + 1) (by omega)
    | failed =>
      constructor
      · intro hcontra
        simp [pollFrom, hobs] at hcontra
      · rintro ⟨k, hk, hs, hr⟩
        cases k with
        | zero => rw [Nat.add_zero, hobs] at hs; cases hs
        | succ k0 =>
          have h0 := hr 0 (by omega)
          rw [Nat.add_zero, hobs] at h0
          cases h0
    | aborted =>
      constructor
      · intro hcontra
        simp [pollFrom, hobs] at hcontra
      · rintro ⟨k, hk, hs, hr⟩
        cases k with
        | zero => rw [Nat.add_zero, hobs] at hs; cases hs
        | succ k0 =>
          have h0 := hr 0 (by omega)
          rw [Nat.add_zero, hobs] at h0
          cases h0
    | timedOut =>
      constructor
      · intro hcontra
        simp [pollFrom, hobs] at hcontra
      · rintro ⟨k, hk, hs, hr⟩
        cases k with
        | zero => rw [Nat.add_zero, hobs] at hs; cases hs
        | succ k0 =>
          have h0 := hr 0 (by omega)
          rw [Nat.add_zero, hobs] at h0
          cases h0

/-- C4: `run_actor` fetches and returns the result records (without a
warning) exactly when some poll among the `timeout_sec / 5` attempts
observes SUCCEEDED before any terminal failure status; in every other
case — a FAILED / ABORTED / TIMED-OUT status observed first, or the
attempt budget exhausted — it returns the empty record list with the
warning flag set, attempt exhaustion and explicit failure yielding the
very same result. -/
theorem C4_recovered_job_failure {α : Type} (obs : Nat → ActorStatus)
    (timeout_sec : Nat) (items : List α) :
    (run_actor obs timeout_sec items = (items, false) ↔
      ∃ k, k < timeout_sec / 5 ∧ obs k = ActorStatus.succeeded ∧
        ∀ j, j < k → obs j = ActorStatus.running)
  ∧ ((∀ k, k < timeout_sec / 5 →
        ¬(obs k = ActorStatus.succeeded ∧
          ∀ j, j < k → obs j = ActorStatus.running)) →
      run_actor obs timeout_sec items = ([], true)) := by
  have hiff := pollFrom_eq_true_iff obs (timeout_sec / 5) 0
  simp only [Nat.zero_add] at hiff
  constructor
  · by_cases hp : pollFrom obs (timeout_sec / 5) 0 = true
    · rw [run_actor, if_pos hp]
      exact ⟨fun _ => hiff.mp hp, fun _ => rfl⟩
    · rw [run_actor, if_neg hp]
      constructor
      · intro he
        have : (true : Bool) = false := congrArg Prod.snd he
        cases this
      · intro hex
        exact absurd (hiff.mpr hex) hp
  · intro hnone
    have hp : ¬pollFrom obs (timeout_sec / 5) 0 = true := by
      intro hp
      obtain ⟨k, hk, hs, hr⟩ := hiff.mp hp
      exact hnone k hk ⟨hs, hr⟩
    rw [run_actor, if_neg hp]

/-- C4 witness: a run whose first poll observes FAILED (with the default
300-second timeout, i.e. 60 attempts) yields zero records and a
warning. -/
theorem C4_recovered_job_failure_witness :
    run_actor (fun _ => ActorStatus.failed) 300 ([7] : List Nat) = ([], true) :=
  (C4_recovered_job_failure (fun _ => ActorStatus.failed) 300 [7]).2 (by decide)

/- ──────────────────────────────────────────────────────────────
   C1 — cost avoidance of the incremental reconciler
   ────────────────────────────────────────────────────────────── -/

/-- Folding union over the discovery units, starting from any
accumulator. -/
theorem foldl_union_eq (t : List (Finset String)) :
    ∀ acc : Finset String,
      t.foldl (fun s c => s ∪ c) acc = acc ∪ unitsUnion t := by
  induction t with
  | nil =>
    intro acc
    simp [unitsUnion]
  | cons c t ih =>
    intro acc
    simp only [List.foldl_cons, unitsUnion]
    rw [ih (acc ∪ c), ih (∅ ∪ c), Finset.empty_union, Finset.union_assoc]

/-- Peeling one discovery unit off the candidate union. -/
theorem unitsUnion_cons (c : Finset String) (t : List (Finset String)) :
    unitsUnion (c :: t) = c ∪ unitsUnion t := by
  simp only [unitsUnion, List.foldl_cons]
  rw [foldl_union_eq t (∅ ∪ c), Finset.empty_union]
  rfl

/-- The accumulated `new_in_unit` loop, from any already-found set. -/
theorem discover_foldl_eq (e : Finset String) :
    ∀ (units : List (Finset String)) (acc : Finset String),
      units.foldl (fun found cand => found ∪ ((cand \ e) \ found)) acc =
        acc ∪ (unitsUnion units \ e) := by
  intro units
  induction units with
  | nil =>
    intro acc
    simp [unitsUnion]
  | cons c t ih =>
    intro acc
    simp only [List.foldl_cons]
    rw [ih, Finset.union_sdiff_self_eq_union, unitsUnion_cons,
      Finset.union_sdiff_distrib, Finset.union_assoc]

/-- C1: the set of identity keys the discovery loop accumulates — and
hence submits to the enrichment phase — is exactly the union of the
per-unit candidate keys minus the keys of the loaded existing catalog,
so no existing key is ever submitted; the YouTube variant loads no
catalog and accumulates exactly the candidate union (the formula with an
empty existing-key set). -/
theorem C1_cost_avoidance (existingKeys : Finset String)
    (units : List (Finset String)) :
    discoverLoop existingKeys units = unitsUnion units \ existingKeys
  ∧ (∀ k ∈ existingKeys, k ∉ discoverLoop existingKeys units)
  ∧ unitsUnion units = unitsUnion units \ (∅ : Finset String) := by
  have hloop : discoverLoop existingKeys units =
      unitsUnion units \ existingKeys := by
    unfold discoverLoop
    rw [discover_foldl_eq existingKeys units ∅, Finset.empty_union]
  refine ⟨hloop, ?_, Finset.sdiff_empty.symm⟩
  intro k hk
  rw [hloop, Finset.mem_sdiff]
  rintro ⟨-, hnot⟩
  exact hnot hk

/-- C1 witness: a key already in the loaded catalog is not submitted even
when a discovery unit rediscovers it. -/
theorem C1_cost_avoidance_witness :
    "known" ∉ discoverLoop {"known"} [{"known", "new"}] :=
  (C1_cost_avoidance {"known"} [{"known", "new"}]).2.1 "known" (by decide)

/- ──────────────────────────────────────────────────────────────
   Dictionary lemmas (for C2, C6, C8)
   ────────────────────────────────────────────────────────────── -/

/-- Key membership in a cons dictionary, head key known different. -/
theorem mem_dkeys_cons {α : Type} {k : String} {p : String × α}
    {t : List (String × α)} (h : k ∈ dkeys (p :: t)) (hne : ¬p.1 = k) :
    k ∈ dkeys t := by
  simp only [dkeys, List.map_cons, List.mem_cons] at h
  rcases h with h | h
  · exact absurd h.symm hne
  · exact h

/-- Key absence in a cons dictionary splits. -/
theorem not_mem_dkeys_cons {α : Type} {k : String} {p : String × α}
    {t : List (String × α)} (h : k ∉ dkeys (p :: t)) :
    ¬p.1 = k ∧ k ∉ dkeys t := by
  simp only [dkeys, List.map_cons, List.mem_cons] at h
  push_neg at h
  exact ⟨fun he => h.1 he.symm, h.2⟩

/-- The in-place overwrite map of `setKey` does not change the key
sequence. -/
theorem dkeys_replace {α : Type} (k : String) (v : α) :
    ∀ d : List (String × α),
      dkeys (d.map (fun p => if p.1 = k then (k, v) else p)) = dkeys d := by
  intro d
  induction d with
  | nil => rfl
  | cons p t ih =>
    simp only [dkeys, List.map_cons] at ih ⊢
    by_cases hp : p.1 = k
    · rw [if_pos hp, ih, hp]
    · rw [if_neg hp, ih]

/-- The in-place overwrite map of `setKey` fixes a dictionary missing
the key. -/
theorem replace_of_not_mem {α : Type} (k : String) (v : α) :
    ∀ d : List (String × α), k ∉ dkeys d →
      d.map (fun p => if p.1 = k then (k, v) else p) = d := by
  intro d
  induction d with
  | nil => intro _; rfl
  | cons p t ih =>
    intro hk
    obtain ⟨hne, hkt⟩ := not_mem_dkeys_cons hk
    simp only [List.map_cons, if_neg hne, ih hkt]

/-- Lookup misses exactly the absent keys. -/
theorem dlookup_eq_none {α : Type} (k : String) :
    ∀ d : List (String × α), k ∉ dkeys d → dlookup k d = none := by
  intro d
  induction d with
  | nil => intro _; rfl
  | cons p t ih =>
    intro hk
    obtain ⟨hne, hkt⟩ := not_mem_dkeys_cons hk
    simp [dlookup, hne, ih hkt]

/-- Lookup in an appended dictionary, key present on the left. -/
theorem dlookup_append_left {α : Type} (k : String) :
    ∀ (d₁ d₂ : List (String × α)), k ∈ dkeys d₁ →
      dlookup k (d₁ ++ d₂) = dlookup k d₁ := by
  intro d₁
  induction d₁ with
  | nil => intro d₂ h; simp [dkeys] at h
  | cons p t ih =>
    intro d₂ hk
    by_cases hp : p.1 = k
    · simp [dlookup, hp]
    · simp [dlookup, hp, ih d₂ (mem_dkeys_cons hk hp)]

/-- Lookup in an appended dictionary, key absent on the left. -/
theorem dlookup_append_right {α : Type} (k : String) :
    ∀ (d₁ d₂ : List (String × α)), k ∉ dkeys d₁ →
      dlookup k (d₁ ++ d₂) = dlookup k d₂ := by
  intro d₁
  induction d₁ with
  | nil => intro d₂ _; rfl
  | cons p t ih =>
    intro d₂ hk
    obtain ⟨hne, hkt⟩ := not_mem_dkeys_cons hk
    simp [dlookup, hne, ih d₂ hkt]

/-- Overwriting a key makes lookup return the new value. -/
theorem dlookup_setKey_self {α : Type} (k : String) (v : α) :
    ∀ d : List (String × α), dlookup k (setKey d k v) = some v := by
  intro d
  unfold setKey
  by_cases hmem : k ∈ dkeys d
  · rw [if_pos hmem]
    induction d with
    | nil => simp [dkeys] at hmem
    | cons p t ih =>
      by_cases hp : p.1 = k
      · simp [dlookup, hp]
      · simp only [List.map_cons, if_neg hp]
        simp [dlookup, hp, ih (mem_dkeys_cons hmem hp)]
  · rw [if_neg hmem, dlookup_append_right k d [(k, v)] hmem]
    simp [dlookup]

/-- Overwriting one key leaves every other lookup unchanged. -/
theorem dlookup_setKey_ne {α : Type} (j k : String) (v : α) (hne : j ≠ k) :
    ∀ d : List (String × α), dlookup j (setKey d k v) = dlookup j d := by
  intro d
  unfold setKey
  by_cases hmem : k ∈ dkeys d
  · rw [if_pos hmem]
    clear hmem
    induction d with
    | nil => rfl
    | cons p t ih =>
      by_cases hp : p.1 = k
      · have hpj : ¬p.1 = j := by
          rw [hp]
          exact fun he => hne he.symm
        have hkj : ¬k = j := fun he => hne he.symm
        simp only [List.map_cons, if_pos hp]
        simp [dlookup, hpj, hkj, ih]
      · simp only [List.map_cons, if_neg hp]
        by_cases hpj : p.1 = j
        · simp [dlookup, hpj]
        · simp [dlookup, hpj, ih]
  · rw [if_neg hmem]
    by_cases hj : j ∈ dkeys d
    · exact dlookup_append_left j d [(k, v)] hj
    · rw [dlookup_append_right j d [(k, v)] hj, dlookup_eq_none j d hj]
      have hkj : ¬k = j := fun he => hne he.symm
      simp [dlookup, hkj]

/-- Overwriting never removes a key. -/
theorem mem_dkeys_setKey {α : Type} (j k : String) (v : α)
    (d : List (String × α)) (hj : j ∈ dkeys d) : j ∈ dkeys (setKey d k v) := by
  unfold setKey
  by_cases hmem : k ∈ dkeys d
  · rw [if_pos hmem, dkeys_replace]
    exact hj
  · rw [if_neg hmem]
    simp only [dkeys, List.map_append]
    exact List.mem_append_left _ hj

/-- The written key is present after overwriting. -/
theorem self_mem_dkeys_setKey {α : Type} (k : String) (v : α)
    (d : List (String × α)) : k ∈ dkeys (setKey d k v) := by
  unfold setKey
  by_cases hmem : k ∈ dkeys d
  · rw [if_pos hmem, dkeys_replace]
    exact hmem
  · rw [if_neg hmem]
    simp only [dkeys, List.map_append, List.map_cons, List.map_nil]
    exact List.mem_append_right _ (by simp)

/-- A key absent from the update batch keeps its old binding. -/
theorem dlookup_dictUpdate_not_mem {α : Type} (k : String) :
    ∀ (n e : List (String × α)), k ∉ dkeys n →
      dlookup k (dictUpdate e n) = dlookup k e := by
  intro n
  induction n with
  | nil => intro e _; rfl
  | cons q t ih =>
    intro e hk
    obtain ⟨hne, hkt⟩ := not_mem_dkeys_cons hk
    show dlookup k (dictUpdate (setKey e q.1 q.2) t) = dlookup k e
    rw [ih (setKey e q.1 q.2) hkt,
      dlookup_setKey_ne k q.1 q.2 (fun he => hne he.symm) e]

/-- A key of the update batch ends up with its batch binding (the batch
is a dict, so its keys are distinct). -/
theorem dlookup_dictUpdate_mem {α : Type} (k : String) :
    ∀ (n e : List (String × α)), (dkeys n).Nodup → k ∈ dkeys n →
      dlookup k (dictUpdate e n) = dlookup k n := by
  intro n
  induction n with
  | nil => intro e _ hk; simp [dkeys] at hk
  | cons q t ih =>
    intro e hnd hk
    have hnd2 : (dkeys t).Nodup ∧ q.1 ∉ dkeys t := by
      simp only [dkeys, List.map_cons, List.nodup_cons] at hnd
      exact ⟨hnd.2, hnd.1⟩
    show dlookup k (dictUpdate (setKey e q.1 q.2) t) = dlookup k (q :: t)
    by_cases hq : q.1 = k
    · have hkt : k ∉ dkeys t := hq ▸ hnd2.2
      rw [dlookup_dictUpdate_not_mem k t (setKey e q.1 q.2) hkt, hq,
        dlookup_setKey_self k q.2 e]
      simp [dlookup, hq]
    · have hkt : k ∈ dkeys t := mem_dkeys_cons hk hq
      rw [ih (setKey e q.1 q.2) hnd2.1 hkt]
      simp [dlookup, hq]

/-- No key is ever deleted by a dict update. -/
theorem mem_dkeys_dictUpdate {α : Type} (k : String) :
    ∀ (n e : List (String × α)), k ∈ dkeys e →
      k ∈ dkeys (dictUpdate e n) := by
  intro n
  induction n with
  | nil => intro e hk; exact hk
  | cons q t ih =>
    intro e hk
    exact ih (setKey e q.1 q.2) (mem_dkeys_setKey k q.1 q.2 e hk)

/-- C2: the reconciler merge `{**existing, **new}` maps every key of the
new batch to its new record, maps every other key to exactly the record
it had in the existing catalog, and deletes no existing key. -/
theorem C2_merge_semantics (e n : List (String × Influencer))
    (hnd : (dkeys n).Nodup) (k : String) :
    (k ∈ dkeys n → dlookup k (dictUpdate e n) = dlookup k n)
  ∧ (k ∉ dkeys n → dlookup k (dictUpdate e n) = dlookup k e)
  ∧ (k ∈ dkeys e → k ∈ dkeys (dictUpdate e n)) :=
  ⟨fun hk => dlookup_dictUpdate_mem k n e hnd hk,
    fun hk => dlookup_dictUpdate_not_mem k n e hk,
    fun hk => mem_dkeys_dictUpdate k n e hk⟩

/-- C2 witness: with existing catalog {a ↦ old, c ↦ kept} and new batch
{a ↦ fresh, b ↦ added}, the merge refreshes a, keeps c bit-for-bit, adds
b, and deletes nothing. -/
theorem C2_merge_semantics_witness :
    dlookup "a"
        (dictUpdate
          [("a", ({ handle := "a", followers := 1 } : Influencer)),
            ("c", { handle := "c", followers := 3 })]
          [("a", { handle := "a", followers := 2 }),
            ("b", { handle := "b", followers := 4 })]) =
      some { handle := "a", followers := 2 } ∧
    dlookup "c"
        (dictUpdate
          [("a", ({ handle := "a", followers := 1 } : Influencer)),
            ("c", { handle := "c", followers := 3 })]
          [("a", { handle := "a", followers := 2 }),
            ("b", { handle := "b", followers := 4 })]) =
      some { handle := "c", followers := 3 } ∧
    "c" ∈ dkeys
        (dictUpdate
          [("a", ({ handle := "a", followers := 1 } : Influencer)),
            ("c", { handle := "c", followers := 3 })]
          [("a", { handle := "a", followers := 2 }),
            ("b", { handle := "b", followers := 4 })]) := by
  refine ⟨?_, ?_, ?_⟩
  · have h := (C2_merge_semantics
      [("a", ({ handle := "a", followers := 1 } : Influencer)),
        ("c", { handle := "c", followers := 3 })]
      [("a", { handle := "a", followers := 2 }),
        ("b", { handle := "b", followers := 4 })]
      (by decide) "a").1 (by decide)
    rw [h]
    rfl
  · have h := (C2_merge_semantics
      [("a", ({ handle := "a", followers := 1 } : Influencer)),
        ("c", { handle := "c", followers := 3 })]
      [("a", { handle := "a", followers := 2 }),
        ("b", { handle := "b", followers := 4 })]
      (by decide) "c").2.1 (by decide)
    rw [h]
    rfl
  · exact (C2_merge_semantics
      [("a", ({ handle := "a", followers := 1 } : Influencer)),
        ("c", { handle := "c", followers := 3 })]
      [("a", { handle := "a", followers := 2 }),
        ("b", { handle := "b", followers := 4 })]
      (by decide) "c").2.2 (by decide)

/- ──────────────────────────────────────────────────────────────
   Sort lemmas (for C5, C6)
   ────────────────────────────────────────────────────────────── -/

/-- Stable insertion is a permutation of consing. -/
theorem insertByFollowers_perm (a : Influencer) :
    ∀ l : List Influencer, (insertByFollowers a l).Perm (a :: l) := by
  intro l
  induction l with
  | nil => exact List.Perm.refl _
  | cons b t ih =>
    by_cases hb : a.followers < b.followers
    · simp only [insertByFollowers, if_pos hb]
      exact (ih.cons b).trans (List.Perm.swap a b t)
    · simp only [insertByFollowers, if_neg hb]
      exact List.Perm.refl _

/-- The stable descending sort permutes its input. -/
theorem sortByFollowersDesc_perm (l : List Influencer) :
    (sortByFollowersDesc l).Perm l := by
  induction l with
  | nil => exact List.Perm.refl _
  | cons a t ih =>
    show (insertByFollowers a (sortByFollowersDesc t)).Perm (a :: t)
    exact (insertByFollowers_perm a (sortByFollowersDesc t)).trans (ih.cons a)

/-- A list already sorted descending by followers is a fixed point of
the sort. -/
theorem sortByFollowersDesc_of_sorted :
    ∀ l : List Influencer,
      l.Pairwise (fun a b => b.followers ≤ a.followers) →
      sortByFollowersDesc l = l := by
  intro l
  induction l with
  | nil => intro _; rfl
  | cons a t ih =>
    intro hp
    rw [List.pairwise_cons] at hp
    show insertByFollowers a (sortByFollowersDesc t) = a :: t
    rw [ih hp.2]
    cases t with
    | nil => rfl
    | cons b r =>
      have hb : ¬a.followers < b.followers :=
        Nat.not_lt.mpr (hp.1 b (List.mem_cons_self b r))
      simp only [insertByFollowers, if_neg hb]

/- ──────────────────────────────────────────────────────────────
   C6 — pipeline idempotence (corrected)
   ────────────────────────────────────────────────────────────── -/

/-- Keying a handle-distinct record list produces the corresponding
association list unchanged. -/
theorem dictOfList_eq_of_nodup (key : Influencer → String) :
    ∀ (l : List Influencer) (d : List (String × Influencer)),
      (l.map key).Nodup → (∀ a ∈ l, key a ∉ dkeys d) →
      l.foldl (fun d a => setKey d (key a) a) d = d ++ l.map (fun a => (key a, a)) := by
  intro l
  induction l with
  | nil => intro d _ _; simp
  | cons a t ih =>
    intro d hnd hdisj
    have hka : key a ∉ dkeys d := hdisj a (List.mem_cons_self a t)
    have hstep : setKey d (key a) a = d ++ [(key a, a)] := by
      unfold setKey
      rw [if_neg hka]
    show t.foldl (fun d a => setKey d (key a) a) (setKey d (key a) a) = _
    rw [hstep]
    rw [List.map_cons, List.nodup_cons] at hnd
    have hdisj2 : ∀ b ∈ t, key b ∉ dkeys (d ++ [(key a, a)]) := by
      intro b hb
      simp only [dkeys, List.map_append, List.map_cons, List.map_nil,
        List.mem_append, List.mem_cons, List.not_mem_nil]
      rintro (hmem | hmem)
      · exact hdisj b (List.mem_cons_of_mem a hb) (by simpa [dkeys] using hmem)
      · rcases hmem with he | he
        · exact hnd.1 (he ▸ List.mem_map_of_mem key hb)
        · exact he
    rw [ih (d ++ [(key a, a)]) hnd.2 hdisj2, List.append_assoc]
    rfl

/-- `load_existing` on a handle-distinct influencer list pairs each
record with its handle, in order. -/
theorem load_existing_eq_of_nodup (l : List Influencer)
    (hnd : (l.map (fun a => a.handle)).Nodup) :
    load_existing l = l.map (fun a => (a.handle, a)) := by
  unfold load_existing dictOfList
  rw [dictOfList_eq_of_nodup (fun a => a.handle) l [] hnd
    (by intro a _; simp [dkeys])]
  rfl

/-- C6 counterexample: the claim fails for an existing catalog holding a
record outside the configured follower range — with no new discoveries
the run drops it, so the output count and list differ from the input.
Here the catalog holds one record with 0 followers and the range is
[10000, 1000000]. -/
theorem C6_idempotence_counterexample :
    reconcile [{ handle := "a", followers := 0 }] [] 10000 1000000 ≠
      (1, [{ handle := "a", followers := 0 }]) := by
  decide

/-- C6 amended: re-running the reconciler with no new discoveries
reproduces the existing catalog (same count, same records, same order)
provided the loaded catalog is a fixed point of the run's own output
invariants — handle-distinct, every record inside the configured
inclusive follower range, and already ranked descending by followers —
which is exactly the shape a previous run with the same configuration
persists. -/
theorem C6_idempotence_amended (C : List Influencer) (minF maxF : Nat)
    (hnd : (C.map (fun a => a.handle)).Nodup)
    (hin : ∀ r ∈ C, minF ≤ r.followers ∧ r.followers ≤ maxF)
    (hsorted : C.Pairwise (fun a b => b.followers ≤ a.followers)) :
    reconcile C [] minF maxF = (C.length, C) := by
  simp only [reconcile]
  have hmerge : dictUpdate (load_existing C) (dictOfList (fun a => a.handle) []) =
      load_existing C := rfl
  rw [hmerge, load_existing_eq_of_nodup C hnd]
  have hvals : (C.map (fun a => (a.handle, a))).map (fun p => p.2) = C := by
    rw [List.map_map]
    exact List.map_id C
  rw [hvals]
  have hfilter : rangeFilter C minF maxF = C := by
    unfold rangeFilter
    apply List.filter_eq_self.mpr
    intro a ha
    exact decide_eq_true (hin a ha)
  rw [hfilter, sortByFollowersDesc_of_sorted C hsorted]

/-- C6 witness: a two-record in-range catalog sorted descending is
reproduced exactly. -/
theorem C6_idempotence_amended_witness :
    reconcile
        [{ handle := "a", followers := 50000 },
          { handle := "b", followers := 20000 }] [] 10000 1000000 =
      (2, [{ handle := "a", followers := 50000 },
        { handle := "b", followers := 20000 }]) :=
  C6_idempotence_amended
    [{ handle := "a", followers := 50000 },
      { handle := "b", followers := 20000 }] 10000 1000000
    (by decide) (by decide) (by decide)

/- ──────────────────────────────────────────────────────────────
   C3 — filter boundary inclusivity (corrected)
   ────────────────────────────────────────────────────────────── -/

/-- C3 counterexample: the YouTube pipeline's filter step ignores the
configured maximum.  With the configured bounds min = 10000 and
max = 1000000 (and min_videos = 10), a channel whose followers count is
max + 1 = 1000001 is retained by `apply_filters`, although the claim
says a record one unit above max is excluded. -/
theorem C3_filter_bounds_counterexample :
    apply_filters [{ handle := "big", followers := 1000001, video_count := 10 }]
        10000 10 =
      [{ handle := "big", followers := 1000001, video_count := 10 }] ∧
    (1000000 : Nat) + 1 =
      ({ handle := "big", followers := 1000001, video_count := 10 } :
        Influencer).followers := by
  exact ⟨by decide, by decide⟩

/-- C3 amended: the Instagram/TikTok filter retains a record exactly when
its followers count lies in the inclusive configured range [min, max] (so
values equal to min or max are kept and values one unit outside are
dropped), while the YouTube filter retains a channel exactly when its
followers count is at least min and its video count at least the
configured minimum — with no upper bound on followers. -/
theorem C3_filter_bounds_amended (l : List Influencer)
    (minF maxF minV : Nat) (r : Influencer) :
    (r ∈ rangeFilter l minF maxF ↔
      r ∈ l ∧ minF ≤ r.followers ∧ r.followers ≤ maxF)
  ∧ (r ∈ apply_filters l minF minV ↔
      r ∈ l ∧ minF ≤ r.followers ∧ minV ≤ r.video_count) := by
  constructor
  · unfold rangeFilter
    rw [List.mem_filter]
    simp
  · unfold apply_filters
    rw [List.mem_filter]
    simp

/- ──────────────────────────────────────────────────────────────
   C8 — batch deduplication
   ────────────────────────────────────────────────────────────── -/

/-- Keys already bound before the extraction loop keep their bindings. -/
theorem extractGo_lookup_mem (today : String) :
    ∀ (videos : List TTVideo) (acc : List (String × Influencer)) (k : String),
      k ∈ dkeys acc →
      dlookup k (extractGo today acc videos) = dlookup k acc := by
  intro videos
  induction videos with
  | nil => intro acc k _; rfl
  | cons v rest ih =>
    intro acc k hk
    show dlookup k
        (if ttHandle (effectiveAuthor v) = "" ∨
            ttHandle (effectiveAuthor v) ∈ dkeys acc
          then extractGo today acc rest
          else extractGo today
            (acc ++ [(ttHandle (effectiveAuthor v),
              ttCanon (effectiveAuthor v) today)]) rest) = dlookup k acc
    by_cases hskip : ttHandle (effectiveAuthor v) = "" ∨
        ttHandle (effectiveAuthor v) ∈ dkeys acc
    · rw [if_pos hskip]
      exact ih acc k hk
    · rw [if_neg hskip]
      have hk2 : k ∈ dkeys (acc ++ [(ttHandle (effectiveAuthor v),
          ttCanon (effectiveAuthor v) today)]) := by
        simp only [dkeys, List.map_append]
        exact List.mem_append_left _ hk
      rw [ih _ k hk2]
      exact dlookup_append_left k acc _ hk

/-- Keys not yet bound get the record of the first raw occurrence whose
resolved handle matches. -/
theorem extractGo_lookup_new (today : String) :
    ∀ (videos : List TTVideo) (acc : List (String × Influencer)) (k : String),
      k ∉ dkeys acc → k ≠ "" →
      dlookup k (extractGo today acc videos) =
        (firstAuthorWith k videos).map (fun a => ttCanon a today) := by
  intro videos
  induction videos with
  | nil =>
    intro acc k hk _
    exact dlookup_eq_none k acc hk
  | cons v rest ih =>
    intro acc k hk hke
    have hstep : extractGo today acc (v :: rest) =
        if ttHandle (effectiveAuthor v) = "" ∨
            ttHandle (effectiveAuthor v) ∈ dkeys acc
          then extractGo today acc rest
          else extractGo today
            (acc ++ [(ttHandle (effectiveAuthor v),
              ttCanon (effectiveAuthor v) today)]) rest := rfl
    have hfirst : firstAuthorWith k (v :: rest) =
        if ttHandle (effectiveAuthor v) = k then some (effectiveAuthor v)
        else firstAuthorWith k rest := rfl
    by_cases hskip : ttHandle (effectiveAuthor v) = "" ∨
        ttHandle (effectiveAuthor v) ∈ dkeys acc
    · have hne : ttHandle (effectiveAuthor v) ≠ k := by
        rcases hskip with hsk | hsk
        · intro he
          exact hke (he.symm.trans hsk)
        · intro he
          exact hk (he ▸ hsk)
      rw [hstep, if_pos hskip, hfirst, if_neg hne]
      exact ih acc k hk hke
    · rw [hstep, if_neg hskip, hfirst]
      by_cases heq : ttHandle (effectiveAuthor v) = k
      · rw [if_pos heq]
        have hk2 : k ∈ dkeys (acc ++ [(ttHandle (effectiveAuthor v),
            ttCanon (effectiveAuthor v) today)]) := by
          simp only [dkeys, List.map_append, List.map_cons, List.map_nil]
          exact List.mem_append_right _ (by simp [heq])
        rw [extractGo_lookup_mem today rest _ k hk2,
          dlookup_append_right k acc _ hk]
        simp [dlookup, heq]
      · rw [if_neg heq]
        have hk2 : k ∉ dkeys (acc ++ [(ttHandle (effectiveAuthor v),
            ttCanon (effectiveAuthor v) today)]) := by
          simp only [dkeys, List.map_append, List.map_cons, List.map_nil,
            List.mem_append, List.mem_cons, List.not_mem_nil]
          rintro (hmem | hmem)
          · exact hk hmem
          · rcases hmem with he | he
            · exact heq he.symm
            · exact he
        exact ih _ k hk2 hke

/-- The extraction loop never binds the empty handle. -/
theorem extractGo_no_empty_key (today : String) :
    ∀ (videos : List TTVideo) (acc : List (String × Influencer)),
      "" ∉ dkeys acc → "" ∉ dkeys (extractGo today acc videos) := by
  intro videos
  induction videos with
  | nil => intro acc h; exact h
  | cons v rest ih =>
    intro acc h
    show "" ∉ dkeys
        (if ttHandle (effectiveAuthor v) = "" ∨
            ttHandle (effectiveAuthor v) ∈ dkeys acc
          then extractGo today acc rest
          else extractGo today
            (acc ++ [(ttHandle (effectiveAuthor v),
              ttCanon (effectiveAuthor v) today)]) rest)
    by_cases hskip : ttHandle (effectiveAuthor v) = "" ∨
        ttHandle (effectiveAuthor v) ∈ dkeys acc
    · rw [if_pos hskip]
      exact ih acc h
    · rw [if_neg hskip]
      push_neg at hskip
      apply ih
      simp only [dkeys, List.map_append, List.map_cons, List.map_nil,
        List.mem_append, List.mem_cons, List.not_mem_nil]
      rintro (hmem | hmem)
      · exact h hmem
      · rcases hmem with he | he
        · exact hskip.1 he.symm
        · exact he

/-- The extraction loop keeps the handle keys distinct. -/
theorem extractGo_nodup (today : String) :
    ∀ (videos : List TTVideo) (acc : List (String × Influencer)),
      (dkeys acc).Nodup → (dkeys (extractGo today acc videos)).Nodup := by
  intro videos
  induction videos with
  | nil => intro acc h; exact h
  | cons v rest ih =>
    intro acc h
    show (dkeys
        (if ttHandle (effectiveAuthor v) = "" ∨
            ttHandle (effectiveAuthor v) ∈ dkeys acc
          then extractGo today acc rest
          else extractGo today
            (acc ++ [(ttHandle (effectiveAuthor v),
              ttCanon (effectiveAuthor v) today)]) rest)).Nodup
    by_cases hskip : ttHandle (effectiveAuthor v) = "" ∨
        ttHandle (effectiveAuthor v) ∈ dkeys acc
    · rw [if_pos hskip]
      exact ih acc h
    · rw [if_neg hskip]
      push_neg at hskip
      apply ih
      simp only [dkeys, List.map_append, List.map_cons, List.map_nil]
      rw [List.nodup_append]
      refine ⟨h, List.nodup_singleton _, ?_⟩
      intro x hx hx2
      rcases List.mem_singleton.mp hx2 with he
      exact hskip.2 (he ▸ hx)

/-- Membership in the username set collected by `collect_usernames`. -/
theorem mem_collect_usernames (posts : List IGPost) (u : String) :
    u ∈ collect_usernames posts ↔
      u ≠ "" ∧ ∃ p ∈ posts, p.ownerUsername = some u := by
  unfold collect_usernames
  rw [List.mem_toFinset, List.mem_filterMap]
  constructor
  · rintro ⟨p, hp, hbind⟩
    cases ho : p.ownerUsername with
    | none => rw [ho] at hbind; cases hbind
    | some s =>
      rw [ho] at hbind
      by_cases hs : s = ""
      · simp [hs] at hbind
      · simp only [Option.some_bind, if_neg hs, Option.some.injEq] at hbind
        subst hbind
        exact ⟨hs, p, hp, ho⟩
  · rintro ⟨hne, p, hp, ho⟩
    exact ⟨p, hp, by simp [ho, hne]⟩

/-- C8: within one TikTok extraction batch the canonicalized dict binds
each non-empty handle to the record derived from the first raw video
resolving to that handle (later duplicates are discarded whole), binds
no empty handle, and has pairwise-distinct keys; the Instagram discovery
batch likewise contributes a username exactly when some post carries it
as a non-empty owner username. -/
theorem C8_batch_dedup (videos : List TTVideo) (today : String) :
    (∀ k, k ≠ "" →
      dlookup k (extract_accounts videos today) =
        (firstAuthorWith k videos).map (fun a => ttCanon a today))
  ∧ dlookup "" (extract_accounts videos today) = none
  ∧ (dkeys (extract_accounts videos today)).Nodup
  ∧ (∀ (posts : List IGPost) (u : String),
      u ∈ collect_usernames posts ↔
        u ≠ "" ∧ ∃ p ∈ posts, p.ownerUsername = some u) := by
  refine ⟨?_, ?_, ?_, mem_collect_usernames⟩
  · intro k hk
    exact extractGo_lookup_new today videos [] k (by simp [dkeys]) hk
  · exact dlookup_eq_none "" _
      (extractGo_no_empty_key today videos [] (by simp [dkeys]))
  · exact extractGo_nodup today videos [] (by simp [dkeys])

/-- C8 witness: two raw videos with the same author handle — the batch
keeps exactly the record of the first occurrence. -/
theorem C8_batch_dedup_witness :
    dlookup "x"
        (extract_accounts
          [{ authorMeta := some { authorName := some "x", fans := some 7 } },
            { authorMeta := some { authorName := some "x", fans := some 9 } }]
          "2026-10-12") =
      (firstAuthorWith "x"
          [{ authorMeta := some { authorName := some "x", fans := some 7 } },
            { authorMeta := some { authorName := some "x", fans := some 9 } }]).map
        (fun a => ttCanon a "2026-10-12") :=
  (C8_batch_dedup
      [{ authorMeta := some { authorName := some "x", fans := some 7 } },
        { authorMeta := some { authorName := some "x", fans := some 9 } }]
      "2026-10-12").1 "x" (by decide)

/- ──────────────────────────────────────────────────────────────
   C7 — canonicalization defaults
   ────────────────────────────────────────────────────────────── -/

/-- C7: canonicalizing a raw record that carries nothing but its identity
key yields the documented defaults in every field — 0 for the count
fields, the empty string for the text fields, `false` for the verified
flag, the `none` "unset" sentinel for the engagement rate — and the
string fields are total (the name falls back to the handle, its last
candidate source). -/
theorem C7_canonical_defaults (h today : String) (hne : h ≠ "") :
    igCanonOne { username := some h } today =
      some
        { id := "ig_" ++ h, platform := "instagram", handle := h,
          name := h, profile_url := "https://www.instagram.com/" ++ h ++ "/",
          profile_image := "", followers := 0, following := 0,
          posts_count := 0, engagement_rate := none, bio := "",
          is_verified := false, category := ["skincare", "beauty"],
          tier := "nano", last_updated := today }
  ∧ ttCanon { authorName := some h } today =
      { id := "tt_" ++ h, platform := "tiktok", handle := h, name := h,
        profile_url := "https://www.tiktok.com/@" ++ h,
        profile_image := "", followers := 0, following := 0,
        total_likes := 0, video_count := 0, engagement_rate := none,
        is_verified := false, category := ["skincare", "beauty"],
        tier := "nano", last_updated := today } := by
  constructor
  · simp [igCanonOne, igHandle, igFollowers, pyOrS, pyOrN, pyOrB, hne,
      get_tier]
    rfl
  · simp [ttCanon, ttHandle, pyOrS, pyOrN, pyOrB, hne, get_tier]

/-- C7 witness: the defaults at the concrete handle "alice". -/
theorem C7_canonical_defaults_witness :
    igCanonOne { username := some "alice" } "2026-10-12" =
      some
        { id := "ig_alice", platform := "instagram", handle := "alice",
          name := "alice",
          profile_url := "https://www.instagram.com/alice/",
          profile_image := "", followers := 0, following := 0,
          posts_count := 0, engagement_rate := none, bio := "",
          is_verified := false, category := ["skincare", "beauty"],
          tier := "nano", last_updated := "2026-10-12" } :=
  ((C7_canonical_defaults "alice" "2026-10-12" (by decide)).1).trans (by decide)

/- ──────────────────────────────────────────────────────────────
   C5 — unifier first-source-wins
   ────────────────────────────────────────────────────────────── -/

/-- Every record the unifier pass emits either was carried in from the
accumulator or is the first occurrence of its id in the remaining
input. -/
theorem dedupGo_mem_char :
    ∀ (l : List Influencer) (seen : Finset String) (acc : List Influencer)
      (r : Influencer), r ∈ dedupGo seen acc l →
        r ∈ acc ∨ (r ∈ l ∧ firstWithId r.id l = some r ∧ r.id ∉ seen) := by
  intro l
  induction l with
  | nil => intro seen acc r hr; exact Or.inl hr
  | cons x rest ih =>
    intro seen acc r hr
    by_cases hx : x.id ∈ seen
    · have hr2 : r ∈ dedupGo seen acc rest := by
        simpa [dedupGo, hx] using hr
      rcases ih seen acc r hr2 with hacc | ⟨hmem, hfirst, hseen⟩
      · exact Or.inl hacc
      · have hne : ¬x.id = r.id := fun he => hseen (he ▸ hx)
        refine Or.inr ⟨List.mem_cons_of_mem x hmem, ?_, hseen⟩
        show firstWithId r.id (x :: rest) = some r
        simp only [firstWithId, if_neg hne]
        exact hfirst
    · have hr2 : r ∈ dedupGo (insert x.id seen) (acc ++ [x]) rest := by
        simpa [dedupGo, hx] using hr
      rcases ih _ _ r hr2 with hacc | ⟨hmem, hfirst, hseen⟩
      · rcases List.mem_append.mp hacc with h | h
        · exact Or.inl h
        · have hxr : r = x := by simpa using h
          subst hxr
          refine Or.inr ⟨List.mem_cons_self _ _, ?_, hx⟩
          simp [firstWithId]
      · have hne : ¬x.id = r.id := by
          intro he
          exact hseen (he ▸ Finset.mem_insert_self x.id seen)
        refine Or.inr ⟨List.mem_cons_of_mem x hmem, ?_,
          fun hs => hseen (Finset.mem_insert_of_mem hs)⟩
        show firstWithId r.id (x :: rest) = some r
        simp only [firstWithId, if_neg hne]
        exact hfirst

/-- The ids present after the unifier pass are the accumulator ids plus
the unseen input ids. -/
theorem dedupGo_id_mem :
    ∀ (l : List Influencer) (seen : Finset String) (acc : List Influencer)
      (i : String),
      i ∈ (dedupGo seen acc l).map (fun r => r.id) ↔
        (i ∈ acc.map (fun r => r.id) ∨
          (i ∈ l.map (fun r => r.id) ∧ i ∉ seen)) := by
  intro l
  induction l with
  | nil =>
    intro seen acc i
    simp [dedupGo]
  | cons x rest ih =>
    intro seen acc i
    by_cases hx : x.id ∈ seen
    · have hred : dedupGo seen acc (x :: rest) = dedupGo seen acc rest := by
        simp [dedupGo, hx]
      rw [hred, ih, List.map_cons]
      constructor
      · rintro (h | h)
        · exact Or.inl h
        · exact Or.inr ⟨List.mem_cons_of_mem _ h.1, h.2⟩
      · rintro (h | ⟨hmem, hns⟩)
        · exact Or.inl h
        · rcases List.mem_cons.mp hmem with he | hrest
          · exact absurd (he ▸ hx) hns
          · exact Or.inr ⟨hrest, hns⟩
    · have hred : dedupGo seen acc (x :: rest) =
          dedupGo (insert x.id seen) (acc ++ [x]) rest := by
        simp [dedupGo, hx]
      rw [hred, ih, List.map_cons]
      constructor
      · rintro (h | ⟨hmem, hns⟩)
        · rw [List.map_append] at h
          rcases List.mem_append.mp h with h | h
          · exact Or.inl h
          · have he : i = x.id := by simpa using h
            exact Or.inr ⟨he ▸ List.mem_cons_self _ _, he ▸ hx⟩
        · refine Or.inr ⟨List.mem_cons_of_mem _ hmem, ?_⟩
          intro hs
          exact hns (Finset.mem_insert_of_mem hs)
      · rintro (h | ⟨hmem, hns⟩)
        · exact Or.inl (by rw [List.map_append]; exact List.mem_append_left _ h)
        · by_cases he : i = x.id
          · refine Or.inl ?_
            rw [List.map_append]
            exact List.mem_append_right _ (by simp [he])
          · rcases List.mem_cons.mp hmem with he2 | hrest
            · exact absurd he2 he
            · refine Or.inr ⟨hrest, ?_⟩
              intro hs
              rcases Finset.mem_insert.mp hs with he2 | hs2
              · exact he he2
              · exact hns hs2

/-- The unifier pass keeps output ids pairwise distinct. -/
theorem dedupGo_nodup :
    ∀ (l : List Influencer) (seen : Finset String) (acc : List Influencer),
      (acc.map (fun r => r.id)).Nodup →
      (∀ i ∈ acc.map (fun r => r.id), i ∈ seen) →
      ((dedupGo seen acc l).map (fun r => r.id)).Nodup := by
  intro l
  induction l with
  | nil => intro seen acc h _; exact h
  | cons x rest ih =>
    intro seen acc hnd hsub
    by_cases hx : x.id ∈ seen
    · have hred : dedupGo seen acc (x :: rest) = dedupGo seen acc rest := by
        simp [dedupGo, hx]
      rw [hred]
      exact ih seen acc hnd hsub
    · have hred : dedupGo seen acc (x :: rest) =
          dedupGo (insert x.id seen) (acc ++ [x]) rest := by
        simp [dedupGo, hx]
      rw [hred]
      apply ih (insert x.id seen) (acc ++ [x])
      · rw [List.map_append, List.nodup_append]
        refine ⟨hnd, List.nodup_singleton _, ?_⟩
        intro i hi hi2
        have he : i = x.id := by simpa using hi2
        exact hx (he ▸ hsub i hi)
      · intro i hi
        rw [List.map_append] at hi
        rcases List.mem_append.mp hi with h | h
        · exact Finset.mem_insert_of_mem (hsub i h)
        · have he : i = x.id := by simpa using h
          exact he ▸ Finset.mem_insert_self x.id seen

/-- C5: the unified master catalog has pairwise-distinct ids, carries
exactly the ids occurring in the per-platform catalogs (taken in
priority order), and for every output record that record is
field-for-field the first occurrence of its id across the concatenated
catalogs — so on an id collision the earliest-listed catalog wins. -/
theorem C5_unifier_first_source_wins (catalogs : List (List Influencer)) :
    ((unify_main catalogs).map (fun r => r.id)).Nodup
  ∧ (∀ i, (∃ r ∈ catalogs.flatten, r.id = i) ↔
      (∃ r ∈ unify_main catalogs, r.id = i))
  ∧ (∀ r ∈ unify_main catalogs,
      firstWithId r.id catalogs.flatten = some r) := by
  have hperm : (unify_main catalogs).Perm (dedupGo ∅ [] catalogs.flatten) :=
    sortByFollowersDesc_perm _
  refine ⟨?_, ?_, ?_⟩
  · have hnd : ((dedupGo ∅ [] catalogs.flatten).map (fun r => r.id)).Nodup :=
      dedupGo_nodup _ ∅ [] (by simp) (by simp)
    exact ((hperm.map (fun r => r.id)).nodup_iff).mpr hnd
  · intro i
    constructor
    · rintro ⟨r, hr, hid⟩
      have hidm : i ∈ (dedupGo ∅ [] catalogs.flatten).map (fun r => r.id) := by
        rw [dedupGo_id_mem]
        refine Or.inr ⟨?_, Finset.not_mem_empty i⟩
        exact List.mem_map.mpr ⟨r, hr, hid⟩
      obtain ⟨q, hq, hqid⟩ := List.mem_map.mp hidm
      exact ⟨q, hperm.mem_iff.mpr hq, hqid⟩
    · rintro ⟨r, hr, hid⟩
      have hr2 := hperm.mem_iff.mp hr
      rcases dedupGo_mem_char _ ∅ [] r hr2 with h | ⟨hmem, -, -⟩
      · cases h
      · exact ⟨r, hmem, hid⟩
  · intro r hr
    have hr2 := hperm.mem_iff.mp hr
    rcases dedupGo_mem_char _ ∅ [] r hr2 with h | ⟨-, hfirst, -⟩
    · cases h
    · exact hfirst

/-- C5 witness: two catalogs both carrying id "X" — the unified catalog
keeps the record of the first-listed catalog, field for field. -/
theorem C5_unifier_first_source_wins_witness :
    firstWithId "X"
        ([[{ id := "X", followers := 5 }],
          [{ id := "X", followers := 9 }, { id := "Y", followers := 1 }]] :
            List (List Influencer)).flatten =
      some { id := "X", followers := 5 } :=
  (C5_unifier_first_source_wins
      [[{ id := "X", followers := 5 }],
        [{ id := "X", followers := 9 }, { id := "Y", followers := 1 }]]).2.2
    { id := "X", followers := 5 } (by decide)
